import Mathlib

/-!
Verification of the toru batch card-scanning application.

The definitions below are a shallow embedding of the TypeScript sources:

* `src/electron/main/scanner.ts` — `ScannerService` (duplex mapping,
  page-discovery polling, process-close handling);
* `src/electron/main/index.ts` — the batch orchestrator (`scanner:start`
  handler, card counting, the strict-order processing queue built by
  chaining promise continuations);
* `src/electron/main/image-processor.ts` — the card processing pipeline
  (`validateCrop`, `generateFilename`).

JS numbers that only ever hold integers are modelled as `Nat`/`Int`;
fractional arithmetic (crop validation, brightness ratios) is modelled
over `ℚ`, with `Math.round x` as `⌊x + 1/2⌋` and `Math.ceil` as `⌈·⌉`.
-/

namespace Toru

/-- The side of a card: `'F' | 'B'` in the TypeScript sources. -/
inductive Side where
  | F
  | B
deriving DecidableEq, Repr

/-- Result record of `ScannerService.getCardInfo`. -/
structure CardInfo where
  cardNumber : Nat
  side : Side
deriving DecidableEq, Repr

/-- `ScannerService.getCardInfo` (scanner.ts): for non-duplex scans the page
number is the card number and every page is a front; for duplex scans pages
arrive interleaved (front1, back1, front2, back2, ...), so
`cardNumber = Math.ceil(pageNumber / 2)` and odd pages are fronts. -/
def getCardInfo (pageNumber : Nat) (duplex : Bool) : CardInfo :=
  if !duplex then
    ⟨pageNumber, Side.F⟩
  else
    ⟨(⌈(pageNumber : ℚ) / 2⌉).toNat, if pageNumber % 2 = 1 then Side.F else Side.B⟩

/-- Over the naturals, `⌈n / 2⌉ = (n + 1) / 2` (the latter with truncating
natural division). -/
lemma ceil_nat_div_two (n : Nat) : ⌈(n : ℚ) / 2⌉ = (((n + 1) / 2 : Nat) : ℤ) := by
  have hq1 : (n : ℚ) ≤ (((n + 1) / 2 : Nat) : ℚ) * 2 := by
    exact_mod_cast (by omega : n ≤ ((n + 1) / 2) * 2)
  have hq2 : (((n + 1) / 2 : Nat) : ℚ) * 2 ≤ (n : ℚ) + 1 := by
    exact_mod_cast (by omega : ((n + 1) / 2) * 2 ≤ n + 1)
  refine le_antisymm (Int.ceil_le.mpr ?_) ?_
  · rw [Int.cast_natCast, div_le_iff₀ (by norm_num : (0:ℚ) < 2)]
    exact hq1
  · have h : ((((n + 1) / 2 : Nat) : ℤ) - 1) + 1 ≤ ⌈(n : ℚ) / 2⌉ := by
      rw [Int.add_one_le_ceil_iff, lt_div_iff₀ (by norm_num : (0:ℚ) < 2), Int.cast_sub,
        Int.cast_natCast, Int.cast_one]
      linarith
    omega

lemma getCardInfo_duplex (n : Nat) :
    getCardInfo n true =
      ⟨(n + 1) / 2, if n % 2 = 1 then Side.F else Side.B⟩ := by
  unfold getCardInfo
  rw [if_neg (by decide : ¬((!true) = true)), ceil_nat_div_two, Int.toNat_natCast]

/-- C2: the duplex mapper is the stated pure function. With duplex off every
sequence number `k` maps to card `k`, side Front; with duplex on, sequence
`seq` maps to card `⌈seq / 2⌉ = (seq + 1) / 2` with side Front exactly when
`seq` is odd; in particular 1↦(1,F), 2↦(1,B), 3↦(2,F), 4↦(2,B). -/
theorem duplex_mapper_spec :
    (∀ k : Nat, getCardInfo k false = ⟨k, Side.F⟩) ∧
    (∀ seq : Nat,
      (getCardInfo seq true).cardNumber = (seq + 1) / 2 ∧
      ((getCardInfo seq true).side = Side.F ↔ seq % 2 = 1) ∧
      ((getCardInfo seq true).side = Side.B ↔ seq % 2 = 0)) ∧
    getCardInfo 1 true = ⟨1, Side.F⟩ ∧ getCardInfo 2 true = ⟨1, Side.B⟩ ∧
    getCardInfo 3 true = ⟨2, Side.F⟩ ∧ getCardInfo 4 true = ⟨2, Side.B⟩ := by
  refine ⟨fun k => rfl, fun seq => ?_,
    by rw [getCardInfo_duplex]; rfl, by rw [getCardInfo_duplex]; rfl,
    by rw [getCardInfo_duplex]; rfl, by rw [getCardInfo_duplex]; rfl⟩
  rw [getCardInfo_duplex]
  refine ⟨rfl, ?_, ?_⟩ <;> constructor <;> intro h
  · by_contra hodd
    simp [hodd] at h
  · simp [h]
  · by_contra heven
    have : seq % 2 = 1 := by omega
    simp [this] at h
  · have : ¬ seq % 2 = 1 := by omega
    simp [this]

/-- C10: in duplex mode the mapper is invertible. For every card number
`c ≥ 1`, page `2c - 1` maps to `(c, Front)` and page `2c` maps to
`(c, Back)`, and the mapping is injective on positive page numbers, so no
two distinct pages collide on the same (card, side) address. -/
theorem duplex_mapper_bijective :
    (∀ c : Nat, 1 ≤ c →
      getCardInfo (2 * c - 1) true = ⟨c, Side.F⟩ ∧
      getCardInfo (2 * c) true = ⟨c, Side.B⟩) ∧
    (∀ p q : Nat, 1 ≤ p → 1 ≤ q →
      getCardInfo p true = getCardInfo q true → p = q) := by
  constructor
  · intro c hc
    rw [getCardInfo_duplex, getCardInfo_duplex]
    have h1 : (2 * c - 1) % 2 = 1 := by omega
    have h2 : ¬ (2 * c) % 2 = 1 := by omega
    rw [if_pos h1, if_neg h2]
    constructor
    · congr 1
      omega
    · congr 1
      omega
  · intro p q hp hq h
    rw [getCardInfo_duplex, getCardInfo_duplex] at h
    have hcard : (p + 1) / 2 = (q + 1) / 2 := congrArg CardInfo.cardNumber h
    have hside := congrArg CardInfo.side h
    simp only at hside
    by_cases h1 : p % 2 = 1 <;> by_cases h2 : q % 2 = 1
    · omega
    · rw [if_pos h1, if_neg h2] at hside
      exact absurd hside (by decide)
    · rw [if_neg h1, if_pos h2] at hside
      exact absurd hside (by decide)
    · omega

/-- Witness for `duplex_mapper_bijective` at card 3 and pages 5, 5. -/
theorem duplex_mapper_bijective_witness :
    getCardInfo 5 true = ⟨3, Side.F⟩ ∧ getCardInfo 6 true = ⟨3, Side.B⟩ :=
  duplex_mapper_bijective.1 3 (by decide)

/-- Output format: `'png' | 'jpg'` in the TypeScript sources. -/
inductive Fmt where
  | png
  | jpg
deriving DecidableEq, Repr

/-- The file extension string of a format. -/
def Fmt.ext : Fmt → String
  | .png => "png"
  | .jpg => "jpg"

/-- The side letter used in filenames. -/
def Side.letter : Side → String
  | .F => "F"
  | .B => "B"

/-- Decimal digit characters of `n`, most significant first — the value of
JS `Number.prototype.toString()` on a nonnegative integer. Written with a
fuel argument to make the recursion structural; `natToString` supplies
`n + 1` fuel, which always suffices. -/
def natDigitsAux : Nat → Nat → List Char → List Char
  | 0, _, acc => acc
  | fuel + 1, n, acc =>
    if n < 10 then Nat.digitChar n :: acc
    else natDigitsAux fuel (n / 10) (Nat.digitChar (n % 10) :: acc)

def natToString (n : Nat) : String :=
  ⟨natDigitsAux (n + 1) n []⟩

/-- JS `String.prototype.padStart(targetLength, pad)` for a one-character
pad string: prepend copies of `pad` until the string is `targetLength`
long; a string already that long is returned unchanged. -/
def padStart (s : String) (targetLength : Nat) (pad : Char) : String :=
  ⟨List.replicate (targetLength - s.length) pad⟩ ++ s

/-- `generateFilename` (image-processor.ts): the card number rendered in
decimal and padded with `padStart(4, '0')`, then the side letter, a dot and
the format extension. -/
def generateFilename (cardNumber : Nat) (side : Side) (format : Fmt) : String :=
  padStart (natToString cardNumber) 4 '0' ++ side.letter ++ "." ++ format.ext

/-- The filename as the spec describes it, stated independently of
`padStart`: the four decimal digits of the card number (thousands,
hundreds, tens, ones in order), then the side letter, a dot and the
extension. -/
def specFilename (cardNumber : Nat) (side : Side) (format : Fmt) : String :=
  ⟨[Nat.digitChar (cardNumber / 1000 % 10), Nat.digitChar (cardNumber / 100 % 10),
    Nat.digitChar (cardNumber / 10 % 10), Nat.digitChar (cardNumber % 10)]⟩ ++
    side.letter ++ "." ++ format.ext

lemma natDigitsAux_base (fuel n : Nat) (acc : List Char) (h : n < 10) :
    natDigitsAux (fuel + 1) n acc = Nat.digitChar n :: acc := by
  simp [natDigitsAux, h]

lemma natDigitsAux_step (fuel n : Nat) (acc : List Char) (h : ¬ n < 10) :
    natDigitsAux (fuel + 1) n acc =
      natDigitsAux fuel (n / 10) (Nat.digitChar (n % 10) :: acc) := by
  simp [natDigitsAux, h]

lemma natToString_digits1 (n : Nat) (h : n < 10) :
    natToString n = ⟨[Nat.digitChar n]⟩ := by
  unfold natToString
  rw [natDigitsAux_base _ _ _ h]

lemma natToString_digits2 (n : Nat) (h1 : 10 ≤ n) (h2 : n < 100) :
    natToString n = ⟨[Nat.digitChar (n / 10), Nat.digitChar (n % 10)]⟩ := by
  obtain ⟨m, rfl⟩ : ∃ m, n = m + 1 := ⟨n - 1, by omega⟩
  unfold natToString
  rw [natDigitsAux_step _ _ _ (by omega), natDigitsAux_base _ _ _ (by omega)]

lemma natToString_digits3 (n : Nat) (h1 : 100 ≤ n) (h2 : n < 1000) :
    natToString n =
      ⟨[Nat.digitChar (n / 100), Nat.digitChar (n / 10 % 10), Nat.digitChar (n % 10)]⟩ := by
  obtain ⟨m, rfl⟩ : ∃ m, n = m + 2 := ⟨n - 2, by omega⟩
  unfold natToString
  rw [natDigitsAux_step _ _ _ (by omega), natDigitsAux_step _ _ _ (by omega),
    natDigitsAux_base _ _ _ (by omega)]
  rw [show (m + 2) / 10 / 10 = (m + 2) / 100 by omega]

lemma natToString_digits4 (n : Nat) (h1 : 1000 ≤ n) (h2 : n ≤ 9999) :
    natToString n =
      ⟨[Nat.digitChar (n / 1000), Nat.digitChar (n / 100 % 10),
        Nat.digitChar (n / 10 % 10), Nat.digitChar (n % 10)]⟩ := by
  obtain ⟨m, rfl⟩ : ∃ m, n = m + 3 := ⟨n - 3, by omega⟩
  unfold natToString
  rw [natDigitsAux_step _ _ _ (by omega), natDigitsAux_step _ _ _ (by omega),
    natDigitsAux_step _ _ _ (by omega), natDigitsAux_base _ _ _ (by omega)]
  rw [show (m + 3) / 10 / 10 / 10 = (m + 3) / 1000 by omega,
    show (m + 3) / 10 / 10 % 10 = (m + 3) / 100 % 10 by omega]

lemma padStart_one (c : Char) : padStart ⟨[c]⟩ 4 '0' = ⟨['0', '0', '0', c]⟩ := rfl

lemma padStart_two (c d : Char) : padStart ⟨[c, d]⟩ 4 '0' = ⟨['0', '0', c, d]⟩ := rfl

lemma padStart_three (c d e : Char) :
    padStart ⟨[c, d, e]⟩ 4 '0' = ⟨['0', c, d, e]⟩ := rfl

lemma padStart_four (c d e f : Char) :
    padStart ⟨[c, d, e, f]⟩ 4 '0' = ⟨[c, d, e, f]⟩ := rfl

/-- C9: for every card number up to 9999, side and format, the generated
filename is the zero-padded 4-digit card number followed by the side letter
and the format extension; in particular `generateFilename 1 F png`
is `"0001F.png"` and `generateFilename 23 B jpg` is `"0023B.jpg"`. -/
theorem generate_filename_spec :
    (∀ (n : Nat) (side : Side) (format : Fmt), n ≤ 9999 →
      generateFilename n side format = specFilename n side format) ∧
    generateFilename 1 Side.F Fmt.png = "0001F.png" ∧
    generateFilename 23 Side.B Fmt.jpg = "0023B.jpg" := by
  refine ⟨?_, by decide, by decide⟩
  intro n side format h
  unfold generateFilename specFilename
  by_cases c1 : n < 10
  · rw [natToString_digits1 n c1, padStart_one,
      show n / 1000 % 10 = 0 by omega, show n / 100 % 10 = 0 by omega,
      show n / 10 % 10 = 0 by omega, show n % 10 = n by omega]
    rfl
  · by_cases c2 : n < 100
    · rw [natToString_digits2 n (by omega) c2, padStart_two,
        show n / 1000 % 10 = 0 by omega, show n / 100 % 10 = 0 by omega,
        show n / 10 % 10 = n / 10 by omega]
      rfl
    · by_cases c3 : n < 1000
      · rw [natToString_digits3 n (by omega) c3, padStart_three,
          show n / 1000 % 10 = 0 by omega, show n / 100 % 10 = n / 100 by omega]
        rfl
      · rw [natToString_digits4 n (by omega) h, padStart_four,
          show n / 1000 % 10 = n / 1000 by omega]

/-- Witness for `generate_filename_spec` at card 451. -/
theorem generate_filename_spec_witness :
    generateFilename 451 Side.F Fmt.png = specFilename 451 Side.F Fmt.png :=
  generate_filename_spec.1 451 Side.F Fmt.png (by decide)

/-- Terminal outcome of one scanimage process close, as decided by the
`close` handler in `ScannerService.startBatch` (scanner.ts). -/
inductive CloseOutcome where
  | complete (pageCount : Nat)
  | errorExit (code : Option Int)
deriving DecidableEq, Repr

/-- The `close` handler decision (scanner.ts): exit code 0 and exit code 7
(`SANE_STATUS_NO_DOCS`, i.e. the ADF feeder is empty) emit `complete` with
the processed page count; any other close — including a `null` code when the
process died from a signal, modelled as `none` — emits `error`. -/
def closeOutcome (code : Option Int) (pageCount : Nat) : CloseOutcome :=
  if code = some 0 ∨ code = some 7 then .complete pageCount else .errorExit code

/-- C6: exit status 0 and the empty-feeder status 7 are exactly the normal
completions, carrying the page count; every other exit status produces the
capture-failure outcome; and each close produces exactly one of the two
terminal outcomes. -/
theorem scanner_close_outcome :
    ∀ (code : Option Int) (pageCount : Nat),
      (closeOutcome code pageCount = .complete pageCount ↔
        (code = some 0 ∨ code = some 7)) ∧
      (closeOutcome code pageCount = .errorExit code ↔
        ¬ (code = some 0 ∨ code = some 7)) ∧
      (closeOutcome code pageCount = .complete pageCount ∨
        closeOutcome code pageCount = .errorExit code) ∧
      ¬ (closeOutcome code pageCount = .complete pageCount ∧
        closeOutcome code pageCount = .errorExit code) := by
  intro code pageCount
  by_cases h : code = some 0 ∨ code = some 7 <;>
    simp [closeOutcome, h]

/-- One file the poller sees in the scratch directory: the sequence number
parsed from its `pageNNNN.png` name, and whether `readFile` currently
succeeds (scanimage may still be writing the file). -/
structure DirFile where
  page : Nat
  readable : Bool
deriving DecidableEq, Repr

/-- Loop body of `ScannerService.checkForNewPages` (scanner.ts) for one
directory entry, acting on the pair (processedPages, events emitted so
far): a sequence number already in `processedPages` is skipped
(`continue`); otherwise, if the read succeeds, the number is added to
`processedPages` and the page is emitted; a failed read changes nothing
and is retried on a later tick. -/
def pollFile (acc : List Nat × List Nat) (f : DirFile) : List Nat × List Nat :=
  if f.page ∈ acc.1 then acc
  else if f.readable then (acc.1 ++ [f.page], acc.2 ++ [f.page])
  else acc

/-- One polling tick of `checkForNewPages` over a directory listing:
the updated processedPages set together with the page events emitted
during this tick, in directory order. -/
def checkForNewPages (dir : List DirFile) (processed : List Nat) :
    List Nat × List Nat :=
  dir.foldl pollFile (processed, [])

/-- A batch's worth of polling: one `checkForNewPages` tick per directory
snapshot, `processedPages` carried across ticks (it is cleared once per
batch by `startBatch`), all emitted events concatenated in order. -/
def runPolls (dirs : List (List DirFile)) (processed : List Nat) :
    List Nat × List Nat :=
  match dirs with
  | [] => (processed, [])
  | d :: ds =>
    let r := checkForNewPages d processed
    let rest := runPolls ds r.1
    (rest.1, r.2 ++ rest.2)

/-- 1 while `q` has not been marked processed, 0 afterwards. -/
def notYet (q : Nat) (processed : List Nat) : Nat :=
  if q ∈ processed then 0 else 1

lemma pollFile_count (q : Nat) (acc : List Nat × List Nat) (f : DirFile) :
    (pollFile acc f).2.count q + notYet q (pollFile acc f).1 =
      acc.2.count q + notYet q acc.1 := by
  unfold pollFile notYet
  by_cases h1 : f.page ∈ acc.1
  · simp [h1]
  · by_cases h2 : f.readable
    · by_cases h3 : q = f.page
      · subst h3
        simp [h1, h2, List.count_append]
      · simp [h1, h2, List.count_append, h3, Ne.symm h3]
    · simp [h1, h2]

lemma foldl_pollFile_count (dir : List DirFile) (q : Nat) :
    ∀ acc : List Nat × List Nat,
      (dir.foldl pollFile acc).2.count q + notYet q (dir.foldl pollFile acc).1 =
        acc.2.count q + notYet q acc.1 := by
  induction dir with
  | nil => intro acc; rfl
  | cons f fs ih =>
    intro acc
    rw [List.foldl_cons, ih (pollFile acc f), pollFile_count]

lemma checkForNewPages_count (dir : List DirFile) (processed : List Nat) (q : Nat) :
    (checkForNewPages dir processed).2.count q +
      notYet q (checkForNewPages dir processed).1 = notYet q processed := by
  unfold checkForNewPages
  rw [foldl_pollFile_count]
  simp

lemma runPolls_count (dirs : List (List DirFile)) (processed : List Nat) (q : Nat) :
    (runPolls dirs processed).2.count q + notYet q (runPolls dirs processed).1 =
      notYet q processed := by
  induction dirs generalizing processed with
  | nil => simp [runPolls]
  | cons d ds ih =>
    rw [runPolls]
    simp only [List.count_append]
    rw [Nat.add_assoc, ih, checkForNewPages_count]

lemma pollFile_mono (q : Nat) (acc : List Nat × List Nat) (f : DirFile)
    (h : q ∈ acc.1) : q ∈ (pollFile acc f).1 := by
  unfold pollFile
  split_ifs <;> simp [h]

lemma foldl_pollFile_mono (dir : List DirFile) (q : Nat) :
    ∀ acc : List Nat × List Nat, q ∈ acc.1 → q ∈ (dir.foldl pollFile acc).1 := by
  induction dir with
  | nil => intro acc h; exact h
  | cons f fs ih =>
    intro acc h
    exact ih (pollFile acc f) (pollFile_mono q acc f h)

lemma foldl_pollFile_mem (dir : List DirFile) (q : Nat) :
    ∀ acc : List Nat × List Nat, DirFile.mk q true ∈ dir →
      q ∈ (dir.foldl pollFile acc).1 := by
  induction dir with
  | nil => intro acc h; cases h
  | cons f fs ih =>
    intro acc h
    rcases List.mem_cons.mp h with h | h
    · refine foldl_pollFile_mono fs q (pollFile acc f) ?_
      rw [← h]
      unfold pollFile
      by_cases hm : q ∈ acc.1
      · simp [hm]
      · simp [hm]
    · exact ih (pollFile acc f) h

lemma runPolls_mono (dirs : List (List DirFile)) (processed : List Nat) (q : Nat)
    (h : q ∈ processed) : q ∈ (runPolls dirs processed).1 := by
  induction dirs generalizing processed with
  | nil => exact h
  | cons d ds ih =>
    rw [runPolls]
    exact ih _ (foldl_pollFile_mono d q (processed, []) h)

lemma runPolls_mem (dirs : List (List DirFile)) (processed : List Nat) (q : Nat)
    (dir : List DirFile) (hd : dir ∈ dirs) (hf : DirFile.mk q true ∈ dir) :
    q ∈ (runPolls dirs processed).1 := by
  induction dirs generalizing processed with
  | nil => cases hd
  | cons d ds ih =>
    rw [runPolls]
    rcases List.mem_cons.mp hd with h | h
    · subst h
      exact runPolls_mono ds _ q (foldl_pollFile_mem dir q (processed, []) hf)
    · exact ih _ h

/-- C4: page discovery is idempotent. A sequence number already in
`processedPages` is never emitted by a tick of `checkForNewPages`; over a
whole batch, started with a cleared `processedPages` set, every sequence
number is emitted at most once, and exactly once if some poll sees its
file as readable. -/
theorem page_discovery_idempotent :
    ∀ (dirs : List (List DirFile)) (dir : List DirFile) (q : Nat),
      (∀ processed : List Nat, q ∈ processed →
        q ∉ (checkForNewPages dir processed).2) ∧
      (runPolls dirs []).2.count q ≤ 1 ∧
      (dir ∈ dirs → DirFile.mk q true ∈ dir → (runPolls dirs []).2.count q = 1) := by
  intro dirs dir q
  refine ⟨?_, ?_, ?_⟩
  · intro processed h
    have hc := checkForNewPages_count dir processed q
    rw [show notYet q processed = 0 by simp [notYet, h]] at hc
    have : (checkForNewPages dir processed).2.count q = 0 := by omega
    exact List.count_eq_zero.mp this
  · have hc := runPolls_count dirs [] q
    rw [show notYet q ([] : List Nat) = 1 from rfl] at hc
    omega
  · intro hd hf
    have hc := runPolls_count dirs [] q
    rw [show notYet q ([] : List Nat) = 1 from rfl] at hc
    have hm : q ∈ (runPolls dirs []).1 := runPolls_mem dirs [] q dir hd hf
    rw [show notYet q (runPolls dirs []).1 = 0 by simp [notYet, hm]] at hc
    omega

/-- Witness for `page_discovery_idempotent`: page 2's file is unreadable on
the first tick and read on the second; page 1, already processed, is never
re-emitted. -/
theorem page_discovery_idempotent_witness :
    2 ∉ (checkForNewPages [DirFile.mk 2 true] [2]).2 ∧
    (runPolls [[DirFile.mk 1 true, DirFile.mk 2 false],
      [DirFile.mk 1 true, DirFile.mk 2 true]] []).2.count 2 = 1 :=
  ⟨(page_discovery_idempotent [] [DirFile.mk 2 true] 2).1 [2] (by decide),
   (page_discovery_idempotent
      [[DirFile.mk 1 true, DirFile.mk 2 false], [DirFile.mk 1 true, DirFile.mk 2 true]]
      [DirFile.mk 1 true, DirFile.mk 2 true] 2).2.2 (by decide) (by decide)⟩

/-- The orchestrator state touched by the `scanner:start` IPC handler
(index.ts): the module-level batch variables, an abstraction of the
`processingQueue` promise chain (its length), and the two settings the
handler reads. `scanning` is the `ScannerService` flag consulted through
`scanner.isScanning()` and set by `startBatch`. -/
structure MainState where
  scanning : Bool
  currentBatchName : Option String
  currentOutputDir : Option String
  cardCount : Nat
  queueLength : Nat
  deviceId : String
  outputDirectory : String
deriving DecidableEq, Repr

/-- The three errors `scanner:start` can throw, in guard order. -/
inductive StartError where
  | invalidName
  | alreadyScanning
  | noDevice
deriving DecidableEq, Repr

/-- Result of the `scanner:start` handler. -/
inductive StartResult where
  | ok
  | failed (e : StartError)
deriving DecidableEq, Repr

/-- The `scanner:start` handler (index.ts). All three guards throw before
any state is mutated, so a failed call returns the state unchanged. On
success the handler stores the batch name, derives the output directory by
joining the configured output directory with the batch name, resets the
card count and the processing queue, and begins the capture session, which
sets the scanning flag. -/
def scannerStart (batchName : String) (st : MainState) : StartResult × MainState :=
  if batchName = "" then (.failed .invalidName, st)
  else if st.scanning then (.failed .alreadyScanning, st)
  else if st.deviceId = "" then (.failed .noDevice, st)
  else
    (.ok,
      { st with
        currentBatchName := some batchName
        currentOutputDir := some (st.outputDirectory ++ "/" ++ batchName)
        cardCount := 0
        queueLength := 0
        scanning := true })

/-- C5: starting a batch while one is in progress fails with the conflict
error and leaves every piece of the original batch state — name, output
directory, card count, queue, scanning flag — untouched; an empty batch
name and a missing device likewise fail without mutating anything. -/
theorem scanner_start_guards :
    ∀ (st : MainState) (batchName : String),
      (batchName = "" →
        scannerStart batchName st = (.failed .invalidName, st)) ∧
      (batchName ≠ "" → st.scanning = true →
        scannerStart batchName st = (.failed .alreadyScanning, st)) ∧
      (batchName ≠ "" → st.scanning = false → st.deviceId = "" →
        scannerStart batchName st = (.failed .noDevice, st)) := by
  intro st batchName
  refine ⟨fun h => ?_, fun h1 h2 => ?_, fun h1 h2 h3 => ?_⟩ <;>
    simp [scannerStart, *]

/-- Witness for `scanner_start_guards`: a capturing state rejects a new
start and is returned unchanged. -/
theorem scanner_start_guards_witness :
    scannerStart "batch2"
        (MainState.mk true (some "batch1") (some "/out/batch1") 4 1 "dev" "/out") =
      (.failed .alreadyScanning,
        MainState.mk true (some "batch1") (some "/out/batch1") 4 1 "dev" "/out") :=
  (scanner_start_guards
      (MainState.mk true (some "batch1") (some "/out/batch1") 4 1 "dev" "/out")
      "batch2").2.1 (by decide) rfl

/-- Card-count update performed by the orchestrator's `page` handler
(index.ts) after a page is processed and written:
`if (page.side === 'F') cardCount = page.cardNumber` — an assignment, not
an increment and not a max. A back page leaves the count unchanged. -/
def updateCardCount (cardCount : Nat) (page : CardInfo) : Nat :=
  if page.side = Side.F then page.cardNumber else cardCount

/-- The card count after the processing queue has handled `pages` in
order, starting from `c0` (0 at batch start). -/
def runCardCount (pages : List CardInfo) (c0 : Nat) : Nat :=
  pages.foldl updateCardCount c0

/-- Card numbers of the front pages of a run, in processing order. -/
def frontCards (pages : List CardInfo) : List Nat :=
  pages.filterMap fun p => if p.side = Side.F then some p.cardNumber else none

/-- The highest front card number processed so far (0 if none): the value
the claim says the running count always equals. -/
def highestFront (pages : List CardInfo) : Nat :=
  (frontCards pages).foldl max 0

lemma getLast?_getD_cons (x c : Nat) (l : List Nat) :
    ((x :: l).getLast?).getD c = (l.getLast?).getD x := by
  cases l with
  | nil => rfl
  | cons b t =>
    rw [List.getLast?_cons_cons, List.getLast?_eq_getLast (b :: t) (by simp)]
    rfl

lemma sorted_getLast?_foldl_max (l : List Nat) :
    ∀ c : Nat, List.Sorted (· ≤ ·) l → (∀ x ∈ l, c ≤ x) →
      (l.getLast?).getD c = l.foldl max c := by
  induction l with
  | nil => intro c _ _; rfl
  | cons a t ih =>
    intro c hs hc
    rw [getLast?_getD_cons, List.foldl_cons,
      Nat.max_eq_right (hc a (List.mem_cons_self a t))]
    exact ih a hs.of_cons fun x hx => List.rel_of_sorted_cons hs x hx

lemma frontCards_cons (p : CardInfo) (ps : List CardInfo) :
    frontCards (p :: ps) =
      if p.side = Side.F then p.cardNumber :: frontCards ps else frontCards ps := by
  unfold frontCards
  rw [List.filterMap_cons]
  by_cases h : p.side = Side.F
  · simp [h]
  · simp [h]

lemma runCardCount_eq_lastFront (pages : List CardInfo) :
    ∀ c0 : Nat, runCardCount pages c0 = ((frontCards pages).getLast?).getD c0 := by
  induction pages with
  | nil => intro c0; rfl
  | cons p ps ih =>
    intro c0
    unfold runCardCount
    rw [List.foldl_cons]
    by_cases h : p.side = Side.F
    · rw [frontCards_cons, if_pos h, getLast?_getD_cons,
        show updateCardCount c0 p = p.cardNumber by simp [updateCardCount, h]]
      exact ih p.cardNumber
    · rw [frontCards_cons, if_neg h,
        show updateCardCount c0 p = c0 by simp [updateCardCount, h]]
      exact ih c0

/-- C3 counterexample: the handler assigns (it does not take a max), so if
the poller emits front card 3 before front card 1 — emission order is not
monotonic across polling ticks — the running count is 3 after the first
page and drops to 1 after the second, while the highest front card
processed so far is 3. The count therefore neither equals the highest
front card number nor is monotone for arbitrary emission orders. -/
theorem card_count_highest_counterexample :
    runCardCount [CardInfo.mk 3 Side.F] 0 = 3 ∧
    runCardCount [CardInfo.mk 3 Side.F, CardInfo.mk 1 Side.F] 0 = 1 ∧
    highestFront [CardInfo.mk 3 Side.F, CardInfo.mk 1 Side.F] = 3 ∧
    ¬ (runCardCount [CardInfo.mk 3 Side.F, CardInfo.mk 1 Side.F] 0 =
        highestFront [CardInfo.mk 3 Side.F, CardInfo.mk 1 Side.F]) := by
  decide

/-- C3 (amended): the running card count changes only when a Front page
completes — a Back page leaves it unchanged — and after every processed
page it equals the card number of the most recently processed Front page
(the start value if none has been processed). When the front card numbers
are emitted in nondecreasing order — in particular when pages arrive in
sequence order — the count equals the highest front card number processed
so far after every prefix of the run, and hence never decreases. -/
theorem card_count_amended :
    (∀ (c : Nat) (p : CardInfo), p.side = Side.B → updateCardCount c p = c) ∧
    (∀ (pages : List CardInfo) (c0 : Nat),
      runCardCount pages c0 = ((frontCards pages).getLast?).getD c0) ∧
    (∀ pages : List CardInfo, List.Sorted (· ≤ ·) (frontCards pages) →
      ∀ k : Nat, runCardCount (pages.take k) 0 = highestFront (pages.take k)) := by
  refine ⟨?_, runCardCount_eq_lastFront, ?_⟩
  · intro c p h
    simp [updateCardCount, h]
  · intro pages hsorted k
    have hsub : List.Sublist (frontCards (pages.take k)) (frontCards pages) :=
      List.Sublist.filterMap _ (List.take_sublist k pages)
    have hs : List.Sorted (· ≤ ·) (frontCards (pages.take k)) :=
      List.Pairwise.sublist hsub hsorted
    rw [runCardCount_eq_lastFront,
      sorted_getLast?_foldl_max _ 0 hs fun x _ => Nat.zero_le x]
    rfl

/-- Witness for `card_count_amended`: a back page leaves the count at 7;
and for in-order fronts 1, 2 the count after the whole run equals the
highest front card 2. -/
theorem card_count_amended_witness :
    updateCardCount 7 (CardInfo.mk 9 Side.B) = 7 ∧
    runCardCount ((
      [CardInfo.mk 1 Side.F, CardInfo.mk 1 Side.B, CardInfo.mk 2 Side.F]).take 3) 0 =
      highestFront (([CardInfo.mk 1 Side.F, CardInfo.mk 1 Side.B,
        CardInfo.mk 2 Side.F]).take 3) :=
  ⟨card_count_amended.1 7 (CardInfo.mk 9 Side.B) rfl,
   card_count_amended.2.2
     [CardInfo.mk 1 Side.F, CardInfo.mk 1 Side.B, CardInfo.mk 2 Side.F]
     (by decide) 3⟩

/-- One unit of work appended to the `processingQueue` promise chain by
the orchestrator's `page` handler (index.ts): the page it will process and
whether its processCard-then-writeFile body succeeds. The continuation
catches its own errors, so the chain continues either way. -/
structure QTask where
  pageNumber : Nat
  succeeds : Bool
deriving DecidableEq, Repr

/-- The externally visible side effects of one continuation, in the order
its body performs them: on success the durable file write
(`await writeFile`) and then the progress event (`scan:progress`); on
failure a page-scoped error event (`scan:error`). -/
inductive Effect where
  | fileWrite (pageNumber : Nat)
  | progressEvent (pageNumber : Nat)
  | errorEvent (pageNumber : Nat)
deriving DecidableEq, Repr

def taskEffects (t : QTask) : List Effect :=
  if t.succeeds then [.fileWrite t.pageNumber, .progressEvent t.pageNumber]
  else [.errorEvent t.pageNumber]

/-- Concatenated effects of a list of tasks run to completion in order. -/
def effectsOfTasks : List QTask → List Effect
  | [] => []
  | t :: ts => taskEffects t ++ effectsOfTasks ts

/-- State of the promise chain: the continuations appended but not yet
settled, in chain order, and the side effects committed so far. -/
structure QueueState where
  pending : List QTask
  trace : List Effect
deriving DecidableEq, Repr

/-- One event-loop step. `pageEvent t` is the scanner's `page` event
firing, which appends one continuation to the chain
(`processingQueue = processingQueue.then(...)`); `resolveNext` is the loop
settling the next pending continuation and running it to completion. A
continuation's effects cannot interleave with another's, because each
continuation is scheduled only on the previous one's settlement; resolving
an empty chain changes nothing. -/
inductive QStep where
  | pageEvent (t : QTask)
  | resolveNext
deriving DecidableEq, Repr

def stepQueue (st : QueueState) (s : QStep) : QueueState :=
  match s with
  | .pageEvent t => ⟨st.pending ++ [t], st.trace⟩
  | .resolveNext =>
    match st.pending with
    | [] => st
    | t :: rest => ⟨rest, st.trace ++ taskEffects t⟩

def runQueue (steps : List QStep) (st : QueueState) : QueueState :=
  steps.foldl stepQueue st

/-- The tasks enqueued by a step sequence, in enqueue (page-arrival)
order. -/
def enqueuedTasks (steps : List QStep) : List QTask :=
  steps.filterMap fun s =>
    match s with
    | .pageEvent t => some t
    | .resolveNext => none

lemma effectsOfTasks_append (a b : List QTask) :
    effectsOfTasks (a ++ b) = effectsOfTasks a ++ effectsOfTasks b := by
  induction a with
  | nil => rfl
  | cons t ts ih =>
    rw [List.cons_append]
    show taskEffects t ++ effectsOfTasks (ts ++ b) =
      taskEffects t ++ effectsOfTasks ts ++ effectsOfTasks b
    rw [ih, List.append_assoc]

lemma runQueue_inv (steps : List QStep) :
    ∀ st : QueueState,
      (runQueue steps st).trace ++ effectsOfTasks (runQueue steps st).pending =
        st.trace ++ effectsOfTasks (st.pending ++ enqueuedTasks steps) := by
  induction steps with
  | nil =>
    intro st
    simp [runQueue, enqueuedTasks]
  | cons s ss ih =>
    intro st
    have hrun : runQueue (s :: ss) st = runQueue ss (stepQueue st s) := rfl
    rw [hrun, ih (stepQueue st s)]
    cases s with
    | pageEvent t =>
      show st.trace ++ effectsOfTasks ((st.pending ++ [t]) ++ enqueuedTasks ss) = _
      rw [List.append_assoc st.pending [t] (enqueuedTasks ss)]
      rfl
    | resolveNext =>
      cases hp : st.pending with
      | nil =>
        show (stepQueue st .resolveNext).trace ++
            effectsOfTasks ((stepQueue st .resolveNext).pending ++ enqueuedTasks ss) = _
        simp [stepQueue, hp, enqueuedTasks]
      | cons t rest =>
        show (stepQueue st .resolveNext).trace ++
            effectsOfTasks ((stepQueue st .resolveNext).pending ++ enqueuedTasks ss) = _
        simp only [stepQueue, hp]
        rw [List.cons_append]
        show st.trace ++ taskEffects t ++ effectsOfTasks (rest ++ enqueuedTasks ss) =
          st.trace ++ (taskEffects t ++ effectsOfTasks (rest ++ enqueuedTasks ss))
        rw [List.append_assoc]

lemma filter_take_of_range (l : List QTask) :
    ∀ s N : Nat, l.map QTask.pageNumber = List.range' s l.length →
      l.filter (fun t => decide (t.pageNumber ≤ N)) = l.take (N + 1 - s) ∧
      l.filter (fun t => decide (N < t.pageNumber)) = l.drop (N + 1 - s) := by
  induction l with
  | nil => intro s N _; exact ⟨by simp, by simp⟩
  | cons t ts ih =>
    intro s N h
    rw [List.map_cons, List.length_cons, List.range'_succ] at h
    have ht : t.pageNumber = s := (List.cons.injEq _ _ _ _ ▸ h).1
    have hts : ts.map QTask.pageNumber = List.range' (s + 1) ts.length :=
      (List.cons.injEq _ _ _ _ ▸ h).2
    obtain ⟨ihtake, ihdrop⟩ := ih (s + 1) N hts
    by_cases hle : s ≤ N
    · constructor
      · rw [List.filter_cons_of_pos (by simp [ht]; omega), ihtake,
          show N + 1 - s = (N + 1 - (s + 1)) + 1 by omega]
        rfl
      · rw [List.filter_cons_of_neg (by simp [ht]; omega), ihdrop,
          show N + 1 - s = (N + 1 - (s + 1)) + 1 by omega]
        rfl
    · constructor
      · rw [List.filter_cons_of_neg (by simp [ht]; omega), ihtake,
          show N + 1 - s = 0 by omega, show N + 1 - (s + 1) = 0 by omega]
        rfl
      · rw [List.filter_cons_of_pos (by simp [ht]; omega), ihdrop,
          show N + 1 - s = 0 by omega, show N + 1 - (s + 1) = 0 by omega]
        rfl

/-- C1: the strict-order processing queue serializes side effects in page
order. For any interleaving of page-event enqueues and continuation
resolutions that drains the chain, the committed effect trace is exactly
the per-page effect blocks concatenated in enqueue order; and when the
poller hands pages 1..k to the queue in sequence order, for every N the
trace splits into all effects (file write, progress, or error event) of
pages ≤ N followed by all effects of pages > N — so page N's file write
and progress event occur strictly before page N+1's are attempted, even
though the pages' processing is asynchronous, because each page's work is
chained on the previous page's settlement, success or failure. -/
theorem strict_order_queue_serializes :
    ∀ steps : List QStep,
      (runQueue steps ⟨[], []⟩).pending = [] →
      (runQueue steps ⟨[], []⟩).trace = effectsOfTasks (enqueuedTasks steps) ∧
      ((enqueuedTasks steps).map QTask.pageNumber =
          List.range' 1 (enqueuedTasks steps).length →
        ∀ N : Nat,
          (runQueue steps ⟨[], []⟩).trace =
            effectsOfTasks ((enqueuedTasks steps).filter
              (fun t => decide (t.pageNumber ≤ N))) ++
            effectsOfTasks ((enqueuedTasks steps).filter
              (fun t => decide (N < t.pageNumber)))) := by
  intro steps hdrain
  have hinv := runQueue_inv steps ⟨[], []⟩
  rw [hdrain] at hinv
  simp only [List.nil_append, List.append_nil] at hinv
  have hmain : (runQueue steps ⟨[], []⟩).trace = effectsOfTasks (enqueuedTasks steps) := by
    simpa [effectsOfTasks] using hinv
  refine ⟨hmain, fun hasc N => ?_⟩
  obtain ⟨htake, hdrop⟩ := filter_take_of_range (enqueuedTasks steps) 1 N hasc
  rw [hmain, htake, hdrop, ← effectsOfTasks_append, List.take_append_drop]

/-- Witness for `strict_order_queue_serializes`: pages 1, 2, 3 enqueued
with resolutions interleaved, page 2 failing; the drained trace is the
three effect blocks in order, and splits after page 1. -/
theorem strict_order_queue_serializes_witness :
    (runQueue [QStep.pageEvent ⟨1, true⟩, QStep.resolveNext, QStep.pageEvent ⟨2, false⟩,
        QStep.pageEvent ⟨3, true⟩, QStep.resolveNext, QStep.resolveNext] ⟨[], []⟩).trace =
      effectsOfTasks ((enqueuedTasks [QStep.pageEvent ⟨1, true⟩, QStep.resolveNext,
          QStep.pageEvent ⟨2, false⟩, QStep.pageEvent ⟨3, true⟩, QStep.resolveNext,
          QStep.resolveNext]).filter (fun t => decide (t.pageNumber ≤ 1))) ++
        effectsOfTasks ((enqueuedTasks [QStep.pageEvent ⟨1, true⟩, QStep.resolveNext,
          QStep.pageEvent ⟨2, false⟩, QStep.pageEvent ⟨3, true⟩, QStep.resolveNext,
          QStep.resolveNext]).filter (fun t => decide (1 < t.pageNumber))) :=
  (strict_order_queue_serializes
    [QStep.pageEvent ⟨1, true⟩, QStep.resolveNext, QStep.pageEvent ⟨2, false⟩,
      QStep.pageEvent ⟨3, true⟩, QStep.resolveNext, QStep.resolveNext]
    (by decide)).2 (by decide) 1

/-- A crop region as reported by Sharp's trim metadata
(image-processor.ts). Only width and height are inspected by validation. -/
structure CropRegion where
  left : ℚ
  top : ℚ
  width : ℚ
  height : ℚ
deriving DecidableEq, Repr

/-- Structured form of the reason strings `validateCrop` interpolates:
each constructor carries exactly the numbers that appear in the
corresponding human-readable message (for the width and height messages,
the measured value and the `Math.round`ed band ends). -/
inductive CropReason where
  | widthOutside (width : ℚ) (minRounded maxRounded : ℤ)
  | heightOutside (height : ℚ) (minRounded maxRounded : ℤ)
  | aspectDiffers (actual expected : ℚ)
deriving DecidableEq, Repr

/-- `CropValidation` (image-processor.ts): a verdict plus an optional
reason. -/
structure CropValidation where
  valid : Bool
  reason : Option CropReason
deriving DecidableEq, Repr

/-- JS `Math.round`: half-up rounding. -/
def jsRound (x : ℚ) : ℤ := ⌊x + 1 / 2⌋

/-- `mmToPixels` inside `validateCrop`: `Math.round((mm / 25.4) * dpi)`. -/
def mmToPixels (mm dpi : ℚ) : ℤ := jsRound (mm / 25.4 * dpi)

/-- `CARD_DIMENSIONS.standardMm` (63mm × 88mm) and `tolerancePercent`
(15) from image-processor.ts. -/
def standardWidthMm : ℚ := 63

def standardHeightMm : ℚ := 88

def tolerancePercent : ℚ := 15

/-- The local constants computed by `validateCrop`, exposed as
definitions. -/
def expectedWidthPx (dpi : ℚ) : ℚ := ((mmToPixels standardWidthMm dpi : ℤ) : ℚ)

def expectedHeightPx (dpi : ℚ) : ℚ := ((mmToPixels standardHeightMm dpi : ℤ) : ℚ)

def tolerance : ℚ := tolerancePercent / 100

def minWidthPx (dpi : ℚ) : ℚ := expectedWidthPx dpi * (1 - tolerance)

def maxWidthPx (dpi : ℚ) : ℚ := expectedWidthPx dpi * (1 + tolerance)

def minHeightPx (dpi : ℚ) : ℚ := expectedHeightPx dpi * (1 - tolerance)

def maxHeightPx (dpi : ℚ) : ℚ := expectedHeightPx dpi * (1 + tolerance)

/-- `expectedRatio` in `validateCrop`: 63/88. -/
def expectedAspect : ℚ := standardWidthMm / standardHeightMm

/-- `ratioDiff` in `validateCrop`: relative deviation of the region's
aspect from the expected aspect. -/
def aspectDiff (region : CropRegion) : ℚ :=
  |region.width / region.height - expectedAspect| / expectedAspect

/-- `validateCrop` (image-processor.ts): reject a width outside the ±15%
band, then a height outside its band, then an aspect deviation above 15%;
otherwise the region is valid with no reason. -/
def validateCrop (region : CropRegion) (dpi : ℚ) : CropValidation :=
  if region.width < minWidthPx dpi ∨ maxWidthPx dpi < region.width then
    ⟨false, some (.widthOutside region.width
      (jsRound (minWidthPx dpi)) (jsRound (maxWidthPx dpi)))⟩
  else if region.height < minHeightPx dpi ∨ maxHeightPx dpi < region.height then
    ⟨false, some (.heightOutside region.height
      (jsRound (minHeightPx dpi)) (jsRound (maxHeightPx dpi)))⟩
  else if tolerance < aspectDiff region then
    ⟨false, some (.aspectDiffers (region.width / region.height) expectedAspect)⟩
  else ⟨true, none⟩

lemma expectedWidthPx_600 : expectedWidthPx 600 = 1488 := by
  unfold expectedWidthPx mmToPixels jsRound standardWidthMm
  have h : ⌊(63 : ℚ) / 25.4 * 600 + 1 / 2⌋ = 1488 := by
    rw [Int.floor_eq_iff]
    norm_num
  exact_mod_cast h

lemma expectedHeightPx_600 : expectedHeightPx 600 = 2079 := by
  unfold expectedHeightPx mmToPixels jsRound standardHeightMm
  have h : ⌊(88 : ℚ) / 25.4 * 600 + 1 / 2⌋ = 2079 := by
    rw [Int.floor_eq_iff]
    norm_num
  exact_mod_cast h

lemma minWidthPx_600 : minWidthPx 600 = 6324 / 5 := by
  unfold minWidthPx tolerance tolerancePercent
  rw [expectedWidthPx_600]
  norm_num

lemma maxWidthPx_600 : maxWidthPx 600 = 8556 / 5 := by
  unfold maxWidthPx tolerance tolerancePercent
  rw [expectedWidthPx_600]
  norm_num

lemma minHeightPx_600 : minHeightPx 600 = 35343 / 20 := by
  unfold minHeightPx tolerance tolerancePercent
  rw [expectedHeightPx_600]
  norm_num

lemma maxHeightPx_600 : maxHeightPx 600 = 47817 / 20 := by
  unfold maxHeightPx tolerance tolerancePercent
  rw [expectedHeightPx_600]
  norm_num

lemma jsRound_minWidth_600 : jsRound (minWidthPx 600) = 1265 := by
  rw [minWidthPx_600]
  unfold jsRound
  rw [Int.floor_eq_iff]
  norm_num

lemma jsRound_maxWidth_600 : jsRound (maxWidthPx 600) = 1711 := by
  rw [maxWidthPx_600]
  unfold jsRound
  rw [Int.floor_eq_iff]
  norm_num

lemma validateCrop_valid_iff (region : CropRegion) (dpi : ℚ) :
    validateCrop region dpi = ⟨true, none⟩ ↔
      (minWidthPx dpi ≤ region.width ∧ region.width ≤ maxWidthPx dpi ∧
       minHeightPx dpi ≤ region.height ∧ region.height ≤ maxHeightPx dpi ∧
       aspectDiff region ≤ tolerance) := by
  unfold validateCrop
  split_ifs with h1 h2 h3
  · constructor
    · intro hx
      simp at hx
    · intro hx
      rcases h1 with h | h
      · linarith [hx.1]
      · linarith [hx.2.1]
  · constructor
    · intro hx
      simp at hx
    · intro hx
      rcases h2 with h | h
      · linarith [hx.2.2.1]
      · linarith [hx.2.2.2.1]
  · constructor
    · intro hx
      simp at hx
    · intro hx
      linarith [hx.2.2.2.2]
  · push_neg at h1 h2 h3
    exact ⟨fun _ => ⟨h1.1, h1.2, h2.1, h2.2, h3⟩, fun _ => rfl⟩

lemma validateCrop_valid_eq (region : CropRegion) (dpi : ℚ)
    (h : (validateCrop region dpi).valid = true) :
    validateCrop region dpi = ⟨true, none⟩ := by
  unfold validateCrop at h ⊢
  split_ifs at h ⊢
  rfl

/-- C7: at DPI 600 the expected crop dimensions are 1488 × 2079 pixels
(63mm and 88mm at 600dpi, half-up rounded); a 1488 × 2079 region is valid;
a region of width 1000 is invalid, and its reason names the acceptable
width range 1265–1711 (the rounded ±15% band ends); validity implies the
width, height and aspect-deviation bands at ±15%; and every invalid
verdict carries a reason. -/
theorem validate_crop_spec :
    expectedWidthPx 600 = 1488 ∧
    expectedHeightPx 600 = 2079 ∧
    validateCrop (CropRegion.mk 0 0 1488 2079) 600 = ⟨true, none⟩ ∧
    (∀ l t h : ℚ, validateCrop (CropRegion.mk l t 1000 h) 600 =
      ⟨false, some (CropReason.widthOutside 1000 1265 1711)⟩) ∧
    (∀ region : CropRegion, (validateCrop region 600).valid = true →
      (6324 / 5 : ℚ) ≤ region.width ∧ region.width ≤ 8556 / 5 ∧
      (35343 / 20 : ℚ) ≤ region.height ∧ region.height ≤ 47817 / 20 ∧
      aspectDiff region ≤ 15 / 100) ∧
    (∀ (region : CropRegion) (dpi : ℚ), (validateCrop region dpi).valid = false →
      ∃ r, (validateCrop region dpi).reason = some r) := by
  refine ⟨expectedWidthPx_600, expectedHeightPx_600, ?_, ?_, ?_, ?_⟩
  · rw [validateCrop_valid_iff]
    refine ⟨?_, ?_, ?_, ?_, ?_⟩
    · rw [minWidthPx_600]; norm_num
    · rw [maxWidthPx_600]; norm_num
    · rw [minHeightPx_600]; norm_num
    · rw [maxHeightPx_600]; norm_num
    · unfold aspectDiff expectedAspect standardWidthMm standardHeightMm tolerance
        tolerancePercent
      rw [show ((CropRegion.mk 0 0 1488 2079).width / (CropRegion.mk 0 0 1488 2079).height
          - (63 : ℚ) / 88) = -(11 / 60984) by norm_num]
      rw [abs_of_nonpos (by norm_num)]
      norm_num
  · intro l t h
    unfold validateCrop
    rw [if_pos (Or.inl (show (1000 : ℚ) < minWidthPx 600 by rw [minWidthPx_600]; norm_num))]
    rw [jsRound_minWidth_600, jsRound_maxWidth_600]
  · intro region hvalid
    have h := (validateCrop_valid_iff region 600).mp (validateCrop_valid_eq region 600 hvalid)
    rw [minWidthPx_600, maxWidthPx_600, minHeightPx_600, maxHeightPx_600] at h
    exact ⟨h.1, h.2.1, h.2.2.1, h.2.2.2.1, h.2.2.2.2⟩
  · intro region dpi hinvalid
    unfold validateCrop at hinvalid ⊢
    split_ifs at hinvalid ⊢
    · exact ⟨_, rfl⟩
    · exact ⟨_, rfl⟩
    · exact ⟨_, rfl⟩

/-- Witness for `validate_crop_spec`: the invalid-verdict conjuncts at a
region of width 1000 and the band conjunct at the valid 1488 × 2079
region. -/
theorem validate_crop_spec_witness :
    validateCrop (CropRegion.mk 0 0 1000 2079) 600 =
      ⟨false, some (CropReason.widthOutside 1000 1265 1711)⟩ ∧
    ((6324 / 5 : ℚ) ≤ (CropRegion.mk 0 0 1488 2079).width ∧
      (CropRegion.mk 0 0 1488 2079).width ≤ 8556 / 5 ∧
      (35343 / 20 : ℚ) ≤ (CropRegion.mk 0 0 1488 2079).height ∧
      (CropRegion.mk 0 0 1488 2079).height ≤ 47817 / 20 ∧
      aspectDiff (CropRegion.mk 0 0 1488 2079) ≤ 15 / 100) :=
  ⟨validate_crop_spec.2.2.2.1 0 0 2079,
   validate_crop_spec.2.2.2.2.1 (CropRegion.mk 0 0 1488 2079)
     (by rw [validate_crop_spec.2.2.1])⟩

/-- Modelled from the spec: the auto-brightness policy of the card
processing pipeline (§4.3 step 3, §3 ProcessingOptions). The
image-processor revision implementing it is missing from the sources: the
orchestrator in index.ts passes a `colorAdjustments` option that the
included image-processor.ts `ProcessingOptions` does not declare, and no
included file computes luminance or gamma. Per the spec the policy is an
enabled flag, a target mean brightness and a minimum-brightness trigger
threshold. -/
structure AutoBrightnessPolicy where
  enabled : Bool
  targetBrightness : ℚ
  minBrightness : ℚ
deriving DecidableEq, Repr

/-- Modelled from the spec: the clamp applied to the target/measured
brightness quotient, to the interval [1.0, 2.5]. -/
def clampCorrection (r : ℚ) : ℚ := max 1 (min r (5 / 2))

/-- Modelled from the spec: the auto-brightness decision. If enabled and
the measured mean luminance is strictly below the minimum threshold, a
gamma correction is applied whose clamped target/measured quotient this
returns (`some r`; the applied gamma is `1 / sqrt r`); otherwise no
correction is applied (`none`). -/
def autoBrightnessDecision (policy : AutoBrightnessPolicy) (measured : ℚ) :
    Option ℚ :=
  if policy.enabled = true ∧ measured < policy.minBrightness then
    some (clampCorrection (policy.targetBrightness / measured))
  else none

/-- C8: no correction is applied when the measured brightness is at or
above the minimum threshold (or when the step is disabled); any applied
correction quotient is clamped to [1, 5/2]; for measured brightness 60 and
target 128 (below any threshold above 60) the quotient is 32/15, unclamped
since 32/15 < 5/2; and whenever a correction fires with positive measured
brightness below the target, the applied gamma `1 / sqrt r` lies strictly
between 0 and 1. -/
theorem auto_brightness_spec :
    (∀ (policy : AutoBrightnessPolicy) (measured : ℚ),
      policy.minBrightness ≤ measured →
      autoBrightnessDecision policy measured = none) ∧
    (∀ measured : ℚ, ∀ policy : AutoBrightnessPolicy, policy.enabled = false →
      autoBrightnessDecision policy measured = none) ∧
    (∀ (policy : AutoBrightnessPolicy) (measured r : ℚ),
      autoBrightnessDecision policy measured = some r → 1 ≤ r ∧ r ≤ 5 / 2) ∧
    (∀ policy : AutoBrightnessPolicy, policy.enabled = true →
      policy.targetBrightness = 128 → 60 < policy.minBrightness →
      autoBrightnessDecision policy 60 = some (32 / 15)) ∧
    (∀ (policy : AutoBrightnessPolicy) (measured r : ℚ),
      autoBrightnessDecision policy measured = some r →
      0 < measured → measured < policy.targetBrightness →
      0 < 1 / Real.sqrt (r : ℝ) ∧ 1 / Real.sqrt (r : ℝ) < 1) := by
  refine ⟨?_, ?_, ?_, ?_, ?_⟩
  · intro policy measured h
    unfold autoBrightnessDecision
    rw [if_neg]
    intro hc
    linarith [hc.2]
  · intro measured policy h
    unfold autoBrightnessDecision
    rw [if_neg]
    intro hc
    rw [h] at hc
    exact absurd hc.1 (by decide)
  · intro policy measured r h
    unfold autoBrightnessDecision at h
    split_ifs at h with hc
    · have hr : clampCorrection (policy.targetBrightness / measured) = r :=
        Option.some.injEq _ _ ▸ h
      unfold clampCorrection at hr
      constructor
      · rw [← hr]
        exact le_max_left 1 _
      · rw [← hr]
        exact max_le (by norm_num) (min_le_right _ _)
  · intro policy he ht hm
    unfold autoBrightnessDecision
    rw [if_pos ⟨he, hm⟩, ht]
    have : clampCorrection (128 / 60) = 32 / 15 := by
      unfold clampCorrection
      norm_num
    rw [this]
  · intro policy measured r h hpos hlt
    unfold autoBrightnessDecision at h
    split_ifs at h with hc
    · have hr : clampCorrection (policy.targetBrightness / measured) = r :=
        Option.some.injEq _ _ ▸ h
      have hone : (1 : ℚ) < r := by
        rw [← hr]
        unfold clampCorrection
        have hq : 1 < policy.targetBrightness / measured := (one_lt_div hpos).mpr hlt
        have : (1 : ℚ) < min (policy.targetBrightness / measured) (5 / 2) :=
          lt_min hq (by norm_num)
        exact lt_of_lt_of_le this (le_max_right 1 _)
      have honeR : (1 : ℝ) < (r : ℚ) := by exact_mod_cast hone
      have hsqrt : (1 : ℝ) < Real.sqrt (r : ℝ) := by
        rw [show (1 : ℝ) = Real.sqrt 1 by rw [Real.sqrt_one]]
        exact Real.sqrt_lt_sqrt (by norm_num) honeR
      constructor
      · exact div_pos one_pos (lt_trans one_pos hsqrt)
      · rw [div_lt_one (lt_trans one_pos hsqrt)]
        exact hsqrt

/-- Witness for `auto_brightness_spec` at policy (enabled, target 128,
threshold 100): measured 100 yields no correction, measured 60 yields the
quotient 32/15, whose gamma lies in (0, 1). -/
theorem auto_brightness_spec_witness :
    autoBrightnessDecision (AutoBrightnessPolicy.mk true 128 100) 100 = none ∧
    autoBrightnessDecision (AutoBrightnessPolicy.mk true 128 100) 60 = some (32 / 15) ∧
    (0 < 1 / Real.sqrt (((32 : ℚ) / 15 : ℚ) : ℝ) ∧
      1 / Real.sqrt (((32 : ℚ) / 15 : ℚ) : ℝ) < 1) :=
  ⟨auto_brightness_spec.1 (AutoBrightnessPolicy.mk true 128 100) 100 (by norm_num),
   auto_brightness_spec.2.2.2.1 (AutoBrightnessPolicy.mk true 128 100) rfl rfl
     (by norm_num),
   auto_brightness_spec.2.2.2.2 (AutoBrightnessPolicy.mk true 128 100) 60 (32 / 15)
     (auto_brightness_spec.2.2.2.1 (AutoBrightnessPolicy.mk true 128 100) rfl rfl
       (by norm_num))
     (by norm_num) (by norm_num)⟩

end Toru
